import Mathlib

/-!
# Verification of the MHR refresh pipeline (2025-26-12UA1-Scouting)

Shallow embedding of the opponent-data refresh pipeline of the scouting
portal: the field parsers (rating / record / state rank), the freshness
policy, the history merge engines, the calendar normalizer with its
deduplication key, and the per-entity error-handling loop.  Every
definition is translated from the repository's JavaScript sources
(`scripts/update-teams-from-mhr.mjs`, `scripts/append-ranks-to-history.mjs`,
`scripts/update-opponents-from-mhr*.mjs`, `scripts/lib/mhr-parse.mjs`,
`scripts/lib/schedule-normalize.mjs`).  JavaScript strings are modelled as
`List Char`, JavaScript numbers as `Rat` (plus an explicit `JSNum` type
where non-finite values matter), absent values as `Option`.
-/

namespace Scouting

/-! ## Character helpers (ASCII, mirroring the JS regex character classes) -/

/-- ASCII lower-casing, the effect of JavaScript `toLowerCase`/the `i` regex
flag on the ASCII texts handled by the scripts. -/
def asciiLower (c : Char) : Char :=
  if 'A' ≤ c ∧ c ≤ 'Z' then Char.ofNat (c.toNat + 32) else c

/-- `\d` of JS regexes. -/
def isDigitCh (c : Char) : Bool := '0' ≤ c ∧ c ≤ '9'

/-- ASCII letter. -/
def isLetterCh (c : Char) : Bool :=
  ('a' ≤ c ∧ c ≤ 'z') ∨ ('A' ≤ c ∧ c ≤ 'Z')

/-- `\s` of JS regexes, restricted to the whitespace the normalized texts
can actually contain (the extractors collapse all whitespace to `' '`). -/
def isWsCh (c : Char) : Bool :=
  c = ' ' ∨ c = '\t' ∨ c = '\n' ∨ c = '\r'

/-- `\w` of JS regexes. -/
def isWordCh (c : Char) : Bool :=
  isLetterCh c ∨ isDigitCh c ∨ c = '_'

/-- Case-insensitive character comparison. -/
def lowerEq (a b : Char) : Bool := asciiLower a = asciiLower b

/-- Case-insensitively match the literal `pat` at the head of `l`,
returning the rest on success. -/
def matchCI : List Char → List Char → Option (List Char)
  | [], l => some l
  | _ :: _, [] => none
  | p :: ps, c :: cs => if lowerEq c p then matchCI ps cs else none

/-- Does `l` start (case-insensitively) with `pat`? -/
def startsCI (pat l : List Char) : Bool := (matchCI pat l).isSome

/-- Case-insensitive substring test (JS `String.prototype.includes` after
`toLowerCase`, and the `i`-flagged literal regex tests). -/
def containsCI : List Char → List Char → Bool
  | [], pat => startsCI pat []
  | c :: cs, pat => startsCI pat (c :: cs) || containsCI cs pat

/-- Numeric value of a digit string (JS `Number` on an all-digit capture). -/
def digitsVal (l : List Char) : Nat :=
  l.foldl (fun acc c => acc * 10 + (c.toNat - '0'.toNat)) 0

/-- JS `Number` on a capture `d₁…dₘ.f₁…fₖ` of the rating regexes:
the rational `ipart.fpart` = (ipart·10ᵏ + fpart) / 10ᵏ. -/
def decimalVal (ip fp : List Char) : Rat :=
  mkRat (digitsVal ip * 10 ^ fp.length + digitsVal fp) (10 ^ fp.length)

/-- JS string truthiness for an optional string (`undefined` and `""` are
falsy). -/
def jsTruthyS : Option (List Char) → Bool
  | none => false
  | some s => !s.isEmpty

end Scouting

namespace Scouting

/-! ## Freshness / cache policy

From `updateFile` of the tournament-opponent updater
(`src/unnamed/part_003`, lines 272–285, identical in
`append-ranks-to-history.mjs` lines 458–471):

```js
if (!FORCE && opp.updatedFromMHRAt && typeof opp.rating === "number" && opp.record) {
  const ageMs = Date.now() - new Date(opp.updatedFromMHRAt).getTime();
  const maxAgeMs = STALE_DAYS * 24 * 60 * 60 * 1000;
  const isFresh = ageMs < maxAgeMs;
  if (isFresh) continue;          // skip: cached
}
```

Timestamps are epoch milliseconds (`Int`); an absent `updatedFromMHRAt`
is `none`. -/

/-- The cached-skip condition of the opponent loop: the opponent is skipped
(not refreshed) exactly when not forced, all three cached fields are
present/truthy, and the cache age is below the staleness window. -/
def skipCached (force : Bool) (updatedAt : Option Int) (rating : Option Rat)
    (record : Option (List Char)) (now : Int) (staleDays : Int) : Bool :=
  match force, updatedAt with
  | false, some t =>
      rating.isSome && jsTruthyS record && decide (now - t < staleDays * 86400000)
  | _, _ => false

/-- `shouldRefresh`: the opponent is fetched again unless `skipCached`. -/
def shouldRefresh (force : Bool) (updatedAt : Option Int) (rating : Option Rat)
    (record : Option (List Char)) (now : Int) (staleDays : Int) : Bool :=
  !skipCached force updatedAt rating record now staleDays

/-- The `--stale-days` CLI default (`STALE_DAYS` of both opponent updaters):
a supplied positive number wins, otherwise 7. -/
def staleDaysOf (arg : Option Int) : Int :=
  match arg with
  | some n => if 0 < n then n else 7
  | none => 7

end Scouting

namespace Scouting

/-! ## `safeNumber` and the team updater's field application

From `scripts/update-teams-from-mhr.mjs` (second variant, lines 411–449):

```js
const safeNumber = (n) =>
  (typeof n === "number" && Number.isFinite(n) && n > 0) ? n : undefined;
```

JS numbers reaching `safeNumber` can be non-finite, so they are modelled
explicitly. -/

/-- A JavaScript number: finite (as a rational) or one of the non-finite
values. -/
inductive JSNum where
  | nan : JSNum
  | posInf : JSNum
  | negInf : JSNum
  | fin : Rat → JSNum
deriving DecidableEq, Repr

/-- `Number.isFinite`. -/
def JSNum.isFiniteJS : JSNum → Bool
  | .fin _ => true
  | _ => false

/-- JS `n > 0` (false for `NaN`). -/
def JSNum.gtZero : JSNum → Bool
  | .fin q => decide (0 < q)
  | .posInf => true
  | _ => false

/-- `safeNumber` on a possibly-absent JS value (`typeof n === "number"`
fails on `undefined`). -/
def safeNumber : Option JSNum → Option JSNum
  | some n => if n.isFiniteJS && n.gtZero then some n else none
  | none => none

/-- A team JSON file's fields touched by `updateOneTeam` (team-file JSON
holds only finite numbers). -/
structure TeamFields where
  rating : Option Rat
  record : Option (List Char)
  mhrStateRank : Option Rat
  mhrNationalRank : Option Rat
  lastUpdated : Option (List Char)
deriving DecidableEq, Repr

/-- Parse results handed to `updateOneTeam` (rating still a raw JS number;
`record` already syntactically validated upstream of the diff). -/
structure ParsedInfo where
  nationalRank : Option Rat
  stateRank : Option Rat
  rating : Option JSNum
  record : Option (List Char)
deriving DecidableEq, Repr

/-- `/^\d+-\d+-\d+$/` of `updateOneTeam`. -/
def recShape (s : List Char) : Bool :=
  let p1 := s.takeWhile isDigitCh
  let r1 := s.dropWhile isDigitCh
  match r1 with
  | '-' :: r2 =>
    let p2 := r2.takeWhile isDigitCh
    let r3 := r2.dropWhile isDigitCh
    match r3 with
    | '-' :: r4 =>
      let p3 := r4.takeWhile isDigitCh
      let r5 := r4.dropWhile isDigitCh
      !p1.isEmpty && !p2.isEmpty && !p3.isEmpty && r5.isEmpty
    | _ => false
  | _ => false

/-- `const rating = safeNumber(info.rating)` flattened to an optional
finite value (`safeNumber` only ever lets positive finite numbers through). -/
def guardedRating (info : ParsedInfo) : Option Rat :=
  match safeNumber info.rating with
  | some (.fin q) => some q
  | _ => none

/-- `const record = info.record && /^\d+-\d+-\d+$/.test(...) ? ... : undefined`. -/
def guardedRecord (info : ParsedInfo) : Option (List Char) :=
  match info.record with
  | some s => if recShape s then some s else none
  | none => none

/-- `if (stateRank != null && Number(next.mhrStateRank) !== Number(stateRank))`. -/
def applyStateRank (t : TeamFields) (v : Option Rat) : TeamFields × Bool :=
  match v with
  | some q =>
    if t.mhrStateRank ≠ some q then ({ t with mhrStateRank := some q }, true) else (t, false)
  | none => (t, false)

/-- `if (nationalRank != null && Number(next.mhrNationalRank) !== Number(nationalRank))`. -/
def applyNationalRank (t : TeamFields) (v : Option Rat) : TeamFields × Bool :=
  match v with
  | some q =>
    if t.mhrNationalRank ≠ some q then ({ t with mhrNationalRank := some q }, true)
    else (t, false)
  | none => (t, false)

/-- `if (rating != null && Number(next.rating) !== Number(rating))`. -/
def applyRating (t : TeamFields) (v : Option Rat) : TeamFields × Bool :=
  match v with
  | some q =>
    if t.rating ≠ some q then ({ t with rating := some q }, true) else (t, false)
  | none => (t, false)

/-- `if (record && String(next.record) !== String(record))`. -/
def applyRecord (t : TeamFields) (v : Option (List Char)) : TeamFields × Bool :=
  match v with
  | some s =>
    if t.record ≠ some s then ({ t with record := some s }, true) else (t, false)
  | none => (t, false)

/-- The field-application half of `updateOneTeam` (lines 426–452): guard the
rating through `safeNumber`, validate the record's shape, then apply each
value only when it differs from the stored one, stamping `lastUpdated` when
anything changed.  Returns the new fields and the `changed` flag (which
gates the file write). -/
def updateOneTeamApply (team : TeamFields) (info : ParsedInfo) (today : List Char) :
    TeamFields × Bool :=
  let s1 := applyStateRank team info.stateRank
  let s2 := applyNationalRank s1.1 info.nationalRank
  let s3 := applyRating s2.1 (guardedRating info)
  let s4 := applyRecord s3.1 (guardedRecord info)
  let changed := s1.2 || s2.2 || s3.2 || s4.2
  (if changed then { s4.1 with lastUpdated := some today } else s4.1, changed)

end Scouting

namespace Scouting

/-! ## Calendar normalizer (`scripts/lib/schedule-normalize.mjs`)

`parseOpponent` runs two i-flagged regexes on the whitespace-normalized
title, `\b(.+?)\s+vs\.?\s+(.+?)$` and `\b(.+?)\s+@\s+(.+?)$`, preferring
the `vs` split.  The separators and the leftmost-lazy match semantics are
modelled on the normalized title, where every whitespace run is a single
space. -/

/-- Length of a `\s+vs\.?\s+` separator at the head of `l` (titles are
whitespace-normalized first, so each `\s+` is one character). -/
def vsSepLen (l : List Char) : Option Nat :=
  match l with
  | w :: v :: s :: rest =>
    if isWsCh w && lowerEq v 'v' && lowerEq s 's' then
      match rest with
      | '.' :: w2 :: _ => if isWsCh w2 then some 5 else none
      | w2 :: _ => if isWsCh w2 then some 4 else none
      | [] => none
    else none
  | _ => none

/-- Length of a `\s+@\s+` separator at the head of `l`. -/
def atSepLen (l : List Char) : Option Nat :=
  match l with
  | w1 :: '@' :: w2 :: _ => if isWsCh w1 && isWsCh w2 then some 3 else none
  | _ => none

/-- Lazy-group split at the earliest separator after at least one consumed
character (with at least one character remaining for the second lazy group,
as `(.+?)$` requires); if the remainder would be empty the lazy first group
keeps growing past the separator, as regex backtracking does. -/
def splitSep (f : List Char → Option Nat) : List Char → Option (List Char × List Char)
  | [] => none
  | c :: rest =>
    match f rest with
    | some n =>
      if (rest.drop n).isEmpty then
        match splitSep f rest with
        | some (a, b) => some (c :: a, b)
        | none => none
      else some ([c], rest.drop n)
    | none =>
      match splitSep f rest with
      | some (a, b) => some (c :: a, b)
      | none => none

/-- Leftmost-match `exec`: try each start position in order, requiring the
`\b` assertion there (word-ness changes across the position). -/
def execSepAux (f : List Char → Option Nat) : Bool → List Char → Option (List Char × List Char)
  | _, [] => none
  | prevWord, c :: rest =>
    if prevWord ≠ isWordCh c then
      match splitSep f (c :: rest) with
      | some r => some r
      | none => execSepAux f (isWordCh c) rest
    else execSepAux f (isWordCh c) rest

/-- `regex.exec(t)` for the two separator patterns of `parseOpponent`. -/
def execSep (f : List Char → Option Nat) (t : List Char) : Option (List Char × List Char) :=
  execSepAux f false t

/-- JS `String.prototype.trim`. -/
def trimL (l : List Char) : List Char :=
  ((l.dropWhile isWsCh).reverse.dropWhile isWsCh).reverse

/-- One whitespace run becomes a single `' '` (JS `replace(/\s+/g, " ")`). -/
def squeezeWs : List Char → List Char
  | [] => []
  | c :: rest =>
    let tail := squeezeWs rest
    if isWsCh c then
      match tail with
      | ' ' :: _ => tail
      | _ => ' ' :: tail
    else c :: tail

/-- `(title || "").replace(/\s+/g, " ").trim()`. -/
def normalizeTitle (t : List Char) : List Char := trimL (squeezeWs t)

/-- Remove the first case-insensitive occurrence of `pat`
(`t.replace(new RegExp(selfName, "i"), "")` for a literal self name). -/
def removeFirstCI (pat : List Char) : List Char → List Char
  | [] => []
  | c :: rest =>
    match matchCI pat (c :: rest) with
    | some r => r
    | none => c :: removeFirstCI pat rest

/-- `replace(/[:\-–|]/g, " ")`. -/
def punctToSpace (l : List Char) : List Char :=
  l.map (fun c => if c = ':' ∨ c = '-' ∨ c = '–' ∨ c = '|' then ' ' else c)

inductive HomeAway where
  | Home : HomeAway
  | Away : HomeAway
  | Neutral : HomeAway
deriving DecidableEq, Repr

structure OppParse where
  opponent : List Char
  homeAway : HomeAway
deriving DecidableEq, Repr

/-- `parseOpponent(title, selfName)` of `schedule-normalize.mjs`. -/
def parseOpponent (title self : List Char) : OppParse :=
  let t := normalizeTitle title
  let vsR := execSep vsSepLen t
  let atR := execSep atSepLen t
  match vsR with
  | some (a, b) =>
    if containsCI a self then ⟨trimL b, .Home⟩
    else if containsCI b self then ⟨trimL a, .Away⟩
    else ⟨trimL b, .Neutral⟩
  | none =>
    match atR with
    | some (a, b) =>
      if containsCI a self then ⟨trimL b, .Away⟩
      else if containsCI b self then ⟨trimL a, .Home⟩
      else ⟨trimL b, .Neutral⟩
    | none =>
      let cleaned := trimL (punctToSpace (removeFirstCI self t))
      ⟨if cleaned.isEmpty then "TBD".data else cleaned, .Neutral⟩

/-- A raw VEVENT as consumed by `normalizeEvent`; `start` is the canonical
ISO-8601 instant produced by `new Date(ev.start).toISOString()`. -/
structure RawEvent where
  start : Option (List Char)
  title : Option (List Char)
  summary : Option (List Char)
  location : Option (List Char)
  id : Option (List Char)
  url : Option (List Char)
deriving DecidableEq, Repr

structure Game where
  date : List Char
  time : Option (List Char)
  opponent : List Char
  homeAway : HomeAway
  leagueGame : Bool
  tournament : Option (List Char)
  venue : Option (List Char)
  source : List Char
  sourceId : Option (List Char)
  sourceUrl : Option (List Char)
deriving DecidableEq, Repr

/-- `/tourney|tournament|classic|cup|showcase/i.test(title)`. -/
def isTournKeyword (t : List Char) : Bool :=
  containsCI t "tourney".data || containsCI t "tournament".data ||
  containsCI t "classic".data || containsCI t "cup".data || containsCI t "showcase".data

/-- Case-sensitive prefix test. -/
def startsCS : List Char → List Char → Bool
  | [], _ => true
  | _ :: _, [] => false
  | p :: ps, c :: cs => p = c && startsCS ps cs

/-- The keyword alternation `(Classic|Cup|Showcase)` (case-sensitive). -/
def kwAt (l : List Char) : Option (List Char) :=
  if startsCS "Classic".data l then some "Classic".data
  else if startsCS "Cup".data l then some "Cup".data
  else if startsCS "Showcase".data l then some "Showcase".data
  else none

def isAlphaSp (c : Char) : Bool := isLetterCh c ∨ c = ' '

/-- Greedy split of `[A-Za-z ]+(Classic|Cup|Showcase)`: the longest
letters-and-spaces prefix after which a keyword matches wins. -/
def tournSplit (l : List Char) : Nat → Option (List Char)
  | 0 => none
  | k + 1 =>
    match kwAt (l.drop (k + 1)) with
    | some kw => some (l.take (k + 1) ++ kw)
    | none => tournSplit l k

/-- `([A-Za-z ]+(Classic|Cup|Showcase))` at one start position. -/
def tournMatchAt (l : List Char) : Option (List Char) :=
  let run := (l.takeWhile isAlphaSp).length
  if run = 0 then none else tournSplit l run

/-- Leftmost `title.match(/([A-Za-z ]+(Classic|Cup|Showcase))/)?.[0]`. -/
def tournScan : List Char → Option (List Char)
  | [] => none
  | c :: rest =>
    match tournMatchAt (c :: rest) with
    | some m => some m
    | none => tournScan rest

/-- `normalizeEvent(ev, selfName, source)` of `schedule-normalize.mjs`. -/
def normalizeEvent (ev : RawEvent) (selfName : List Char) (source : List Char) : Game :=
  let date := match ev.start with
    | some s => s.take 10
    | none => "1970-01-01".data
  let time := match ev.start with
    | some s => some ((s.drop 11).take 5)
    | none => none
  let title := match ev.title with
    | some t => t
    | none =>
      match ev.summary with
      | some t => t
      | none => "Game".data
  let op := parseOpponent title selfName
  { date := date, time := time, opponent := op.opponent, homeAway := op.homeAway,
    leagueGame := containsCI title "league".data,
    tournament :=
      if isTournKeyword title then some ((tournScan title).getD "tournament".data)
      else none,
    venue := ev.location, source := source, sourceId := ev.id, sourceUrl := ev.url }

def lowerL (l : List Char) : List Char := l.map asciiLower

/-- `gameDedupKey(g)`:
`[g.date, g.time || "", (g.opponent || "").toLowerCase(), g.source || ""].join("|")`. -/
def gameDedupKey (g : Game) : List Char :=
  g.date ++ '|' :: ((match g.time with | some t => t | none => []) ++
    '|' :: (lowerL g.opponent ++ '|' :: g.source))

def dedupeGo (seen : List (List Char)) : List Game → List Game
  | [] => []
  | g :: rest =>
    if seen.contains (gameDedupKey g) then dedupeGo seen rest
    else g :: dedupeGo (gameDedupKey g :: seen) rest

/-- Modelled from the spec: the per-source deduplication pass over
normalized games ("deduplicate by (date, time, lowercased opponent,
source) — later duplicates are dropped in favor of the first occurrence
with that key").  The fold itself lives in the ICS schedule updater, which
is not among the provided source files; only its key function
`gameDedupKey` is, and is used unchanged here. -/
def dedupeGames (gs : List Game) : List Game := dedupeGo [] gs

end Scouting

namespace Scouting

/-! ## History merge engines

(a) `append-ranks-to-history.mjs` `main` (lines 22–46): per team, rebuild
today's entry from the team file (falling back to the last entry's rating),
drop any existing entry dated today, and append.

(b) `update-teams-from-mhr.mjs` `updateTeam` (lines 142–181): update
rating/record on the team record, then append `{date: today, rating}` to
the rating history unless the last entry is already today's with the same
rating. -/

structure HistoryPoint where
  date : List Char
  rating : Option Rat
  stateRank : Option Rat
  nationalRank : Option Rat
deriving DecidableEq, Repr

/-- The team-file fields read by `append-ranks-to-history.mjs`. -/
structure TeamSnap where
  rating : Option Rat
  mhrStateRank : Option Rat
  mhrNationalRank : Option Rat
deriving DecidableEq, Repr

/-- `last.rating` where `last = hist[hist.length - 1] || {}`. -/
def lastRating (hist : List HistoryPoint) : Option Rat :=
  hist.getLast?.bind (·.rating)

/-- The `entry` object built per team: today's date, the team's rating (or
the last entry's), and the team's ranks when numeric. -/
def mkEntry (today : List Char) (team : TeamSnap) (hist : List HistoryPoint) : HistoryPoint :=
  { date := today,
    rating :=
      match team.rating with
      | some r => some r
      | none => lastRating hist,
    stateRank := team.mhrStateRank,
    nationalRank := team.mhrNationalRank }

/-- `hist.filter(h => h.date !== today); filtered.push(entry)` — the
history merge of `append-ranks-to-history.mjs`. -/
def appendTodaySnapshot (hist : List HistoryPoint) (team : TeamSnap) (today : List Char) :
    List HistoryPoint :=
  hist.filter (fun h => h.date != today) ++ [mkEntry today team hist]

/-- At most one entry per calendar day (the HistoryPoint invariant). -/
def datesDistinct : List HistoryPoint → Bool
  | [] => true
  | e :: rest => rest.all (fun x => x.date != e.date) && datesDistinct rest

/-- Team-file fields read and written by `updateTeam` of
`update-teams-from-mhr.mjs`. -/
structure TeamFile2 where
  rating : Option Rat
  record : Option (List Char)
  lastUpdated : Option (List Char)
  mhrUrl : Option (List Char)
deriving DecidableEq, Repr

/-- A rating-history element `{date, rating}` (older files may lack the
rating field). -/
structure RatingPoint where
  date : List Char
  rating : Option Rat
deriving DecidableEq, Repr

structure TeamStepOut where
  team : TeamFile2
  changed : Bool
  hist : List RatingPoint
  wroteHist : Bool
deriving DecidableEq, Repr

/-- The pure core of `updateTeam` after the fetch: apply parsed
rating/record to the team record (tracking `changed`, which gates the
team-file write), stamp `lastUpdated`, and append to the rating history
when the last entry is missing, dated differently, or carries a different
rating. -/
def updateTeamCore (team : TeamFile2) (hist : List RatingPoint)
    (rating : Option Rat) (record : Option (List Char)) (today : List Char) : TeamStepOut :=
  let (t1, c1) :=
    match rating with
    | some r =>
      if team.rating ≠ some r then ({ team with rating := some r }, true)
      else (team, false)
    | none => (team, false)
  let (t2, c2) :=
    if jsTruthyS record ∧ record ≠ t1.record then ({ t1 with record := record }, true)
    else (t1, false)
  let t3 := { t2 with lastUpdated := some today }
  let doAppend : Bool :=
    match hist.getLast? with
    | none => true
    | some e => e.date != today || (rating.isSome && e.rating != rating)
  if doAppend && rating.isSome then
    { team := t3, changed := c1 || c2, hist := hist ++ [⟨today, rating⟩], wroteHist := true }
  else
    { team := t3, changed := c1 || c2, hist := hist, wroteHist := false }

end Scouting

namespace Scouting

/-! ## The per-entity loop of `update-teams-from-mhr.mjs` `main`/`updateTeam`

`updateTeam` wraps only the fetch in try/catch: a fetch failure logs a
warning and returns without touching the entity's files; `main` then
continues with the next file and finishes normally (exit code 0). The
parsers are passed in as pure functions. -/

inductive FetchRes where
  | err : List Char → FetchRes
  | ok : List Char → FetchRes
deriving DecidableEq, Repr

structure EntityState where
  team : TeamFile2
  hist : List RatingPoint
deriving DecidableEq, Repr

structure StepLog where
  warned : Bool
  wroteTeam : Bool
  wroteHist : Bool
  state : EntityState
deriving DecidableEq, Repr

/-- One `updateTeam` call: skip without `mhrUrl`; on fetch error warn and
return unchanged; otherwise parse and run the update core. -/
def updateTeamStep (findR : List Char → Option Rat)
    (findRec : List Char → Option (List Char)) (today : List Char)
    (e : EntityState) (fr : FetchRes) : StepLog :=
  match e.team.mhrUrl with
  | none => ⟨false, false, false, e⟩
  | some _ =>
    match fr with
    | .err _ => ⟨true, false, false, e⟩
    | .ok html =>
      let r := updateTeamCore e.team e.hist (findR html) (findRec html) today
      ⟨false, r.changed, r.wroteHist, ⟨r.team, r.hist⟩⟩

/-- `main`: process every team file in order; the run completes with exit
code 0 (the non-zero path exists only for uncaught top-level errors, which
the per-entity fetch handling never raises). -/
def runMain (findR : List Char → Option Rat) (findRec : List Char → Option (List Char))
    (today : List Char) (entities : List (EntityState × FetchRes)) : List StepLog × Nat :=
  (entities.map (fun p => updateTeamStep findR findRec today p.1 p.2), 0)

end Scouting

namespace Scouting

/-! ## Record parser

`parseRecord(text)` of `src/unnamed/part_003` (lines 125–146, identical in
`append-ranks-to-history.mjs` and the second `update-teams-from-mhr.mjs`
variant):

```js
const labeled =
  text.match(/\b(?:Overall(?:\s+Record)?|Season(?:\s+Record)?|Record|W[-\s]*L[-\s]*T)\s*[:\s]+(\d{1,3})\s*-\s*(\d{1,3})\s*-\s*(\d{1,3})/i);
if (labeled) return `${labeled[1]}-${labeled[2]}-${labeled[3]}`;
```
falling back to a `\b(\d{1,3})-(\d{1,3})-(\d{1,3})\b` sweep filtered
against date-like prefixes and oversized components, keeping the triplet
with the most games. -/

/-- `takeWhile`/`dropWhile` as one split. -/
def spanP (p : Char → Bool) (l : List Char) : List Char × List Char :=
  (l.takeWhile p, l.dropWhile p)

/-- `\s*[:\s]+(\d{1,3})\s*-\s*(\d{1,3})\s*-\s*(\d{1,3})`: the separator is
a nonempty run over whitespace/colon; the first two digit groups must be
full runs of one to three digits each followed by `\s*-\s*` (a longer run
cannot backtrack into a dash); the final group takes up to three digits of
the following run. -/
def recDigitsTail (l : List Char) : Option (List Char × List Char × List Char) :=
  let (sep, r0) := spanP (fun c => isWsCh c || c = ':') l
  if sep.isEmpty then none
  else
    let (d1, r1) := spanP isDigitCh r0
    if d1.isEmpty || 3 < d1.length then none
    else
      match r1.dropWhile isWsCh with
      | '-' :: r1b =>
        let (d2, r2) := spanP isDigitCh (r1b.dropWhile isWsCh)
        if d2.isEmpty || 3 < d2.length then none
        else
          match r2.dropWhile isWsCh with
          | '-' :: r2b =>
            let (d3, _) := spanP isDigitCh (r2b.dropWhile isWsCh)
            if d3.isEmpty then none
            else some (d1, d2, d3.take 3)
          | _ => none
      | _ => none

/-- The optional `\s+Record` tail of the `Overall`/`Season` alternatives. -/
def wsRecordTail (l : List Char) : Option (List Char) :=
  let (ws, r) := spanP isWsCh l
  if ws.isEmpty then none else matchCI "record".data r

/-- The `W[-\s]*L[-\s]*T` alternative. -/
def wltLabel (l : List Char) : Option (List Char) :=
  match matchCI "w".data l with
  | some r1 =>
    match matchCI "l".data (r1.dropWhile (fun c => c = '-' || isWsCh c)) with
    | some r2 => matchCI "t".data (r2.dropWhile (fun c => c = '-' || isWsCh c))
    | none => none
  | none => none

/-- One labeled-record attempt at a single position (the caller checks the
`\b`).  The alternatives are tried in the regex's order; since they start
with distinct letters, at most one can match a given position, and the
optional `\s+Record` is tried greedily first. -/
def labeledAt (l : List Char) : Option (List Char × List Char × List Char) :=
  match matchCI "overall".data l with
  | some r =>
    (match wsRecordTail r with
     | some r2 => (recDigitsTail r2).orElse (fun _ => recDigitsTail r)
     | none => recDigitsTail r)
  | none =>
  match matchCI "season".data l with
  | some r =>
    (match wsRecordTail r with
     | some r2 => (recDigitsTail r2).orElse (fun _ => recDigitsTail r)
     | none => recDigitsTail r)
  | none =>
  match matchCI "record".data l with
  | some r => recDigitsTail r
  | none =>
    match wltLabel l with
    | some r => recDigitsTail r
    | none => none

/-- Leftmost match of the labeled regex (`text.match` without `g`).  All
label alternatives start with a word character, so the `\b` assertion holds
exactly when the previous character is not a word character. -/
def labeledScan : Bool → List Char → Option (List Char × List Char × List Char)
  | _, [] => none
  | prevWord, c :: rest =>
    if !prevWord && isWordCh c then
      match labeledAt (c :: rest) with
      | some r => some r
      | none => labeledScan (isWordCh c) rest
    else labeledScan (isWordCh c) rest

/-- One fallback-sweep match: its components and the five characters that
preceded it (most recent first), feeding the date-prefix filter. -/
structure Trip where
  wins : Nat
  losses : Nat
  ties : Nat
  pre5 : List Char
deriving DecidableEq, Repr

/-- `\b(\d{1,3})-(\d{1,3})-(\d{1,3})\b` at one position (previous character
already known to be a non-word character): three full digit runs of length
one to three joined by dashes, with a trailing word boundary.  Returns the
components and the rest of the text after the match. -/
def tripletAt (l : List Char) : Option (Nat × Nat × Nat × List Char) :=
  let (d1, r1) := spanP isDigitCh l
  if d1.isEmpty || 3 < d1.length then none
  else match r1 with
  | '-' :: r2 =>
    let (d2, r3) := spanP isDigitCh r2
    if d2.isEmpty || 3 < d2.length then none
    else match r3 with
    | '-' :: r4 =>
      let (d3, r5) := spanP isDigitCh r4
      if d3.isEmpty || 3 < d3.length then none
      else match r5 with
      | [] => some (digitsVal d1, digitsVal d2, digitsVal d3, [])
      | c :: _ =>
        if isWordCh c then none
        else some (digitsVal d1, digitsVal d2, digitsVal d3, r5)
    | _ => none
  | _ => none

/-- `[...text.matchAll(/\b(\d{1,3})-(\d{1,3})-(\d{1,3})\b/g)]`: left to
right, non-overlapping, resuming after each match; `rev` holds the already
scanned characters most recent first (for `\b` and the prefix slice). -/
def tripletScanF : Nat → List Char → List Char → List Trip
  | 0, _, _ => []
  | _ + 1, _, [] => []
  | fuel + 1, rev, c :: rest =>
    let prevW := match rev with | [] => false | p :: _ => isWordCh p
    if !prevW && isDigitCh c then
      match tripletAt (c :: rest) with
      | some (a, b, d, r5) =>
        let consumed := (c :: rest).length - r5.length
        ⟨a, b, d, rev.take 5⟩ ::
          tripletScanF fuel (((c :: rest).take consumed).reverse ++ rev) r5
      | none => tripletScanF fuel (c :: rev) rest
    else tripletScanF fuel (c :: rev) rest

/-- `/\b20\d{2}$/.test(text.slice(max(0, idx - 5), idx))` on the reversed
prefix: the four characters right before the match read `20dd`, preceded
(within the slice) by a non-word character or the slice boundary. -/
def datePrefix (pre5 : List Char) : Bool :=
  match pre5 with
  | y :: x :: '0' :: '2' :: rest =>
    isDigitCh y && isDigitCh x &&
      (match rest with
       | [] => true
       | p :: _ => !isWordCh p)
  | _ => false

/-- Stable descending sort by games played followed by `[0]`: the earliest
triplet among those with the maximal component sum. -/
def chooseBest : List Trip → Option Trip
  | [] => none
  | t :: rest =>
    some (rest.foldl
      (fun best x =>
        if best.wins + best.losses + best.ties < x.wins + x.losses + x.ties then x else best)
      t)

/-- JS number formatting of a natural. -/
def natToChars (n : Nat) : List Char := Nat.toDigits 10 n

/-- `parseRecord(text)`. -/
def parseRecord (text : List Char) : Option (List Char) :=
  match labeledScan false text with
  | some (d1, d2, d3) => some (d1 ++ '-' :: d2 ++ '-' :: d3)
  | none =>
    let trips := tripletScanF (text.length + 1) [] text
    let kept := trips.filter (fun t =>
      !datePrefix t.pre5 && decide (t.wins ≤ 200) && decide (t.losses ≤ 200) &&
        decide (t.ties ≤ 200) && decide (0 < t.wins + t.losses + t.ties))
    match chooseBest kept with
    | some t =>
      some (natToChars t.wins ++ '-' :: natToChars t.losses ++ '-' :: natToChars t.ties)
    | none => none

end Scouting

namespace Scouting

/-! ## Rating parser

`parseRating(text)` of `src/unnamed/part_003` (lines 112–123; same function
in the second `update-teams-from-mhr.mjs` variant):

```js
const rxes = [
  /\bMHR\s*Rating[:\s]+([0-9]+(?:\.[0-9]+)?)/i,
  /\bPower\s*Rating[:\s]+([0-9]+(?:\.[0-9]+)?)/i,
  /\bRating[:\s]+([0-9]+(?:\.[0-9]+)?)/i,
];
for (const rx of rxes) { const m = text.match(rx); if (m) return Number(m[1]); }
```
-/

/-- `[:\s]+([0-9]+(?:\.[0-9]+)?)`: nonempty separator run over
whitespace/colon, then the captured decimal (integer digits, optionally a
dot with at least one fraction digit). -/
def ratingTail (l : List Char) : Option Rat :=
  let (sep, r0) := spanP (fun c => isWsCh c || c = ':') l
  if sep.isEmpty then none
  else
    let (ip, r1) := spanP isDigitCh r0
    if ip.isEmpty then none
    else
      match r1 with
      | '.' :: r2 =>
        let (fp, _) := spanP isDigitCh r2
        if fp.isEmpty then some (decimalVal ip []) else some (decimalVal ip fp)
      | _ => some (decimalVal ip [])

/-- `MHR\s*Rating` + tail at one position. -/
def mhrRatingAt (l : List Char) : Option Rat :=
  match matchCI "mhr".data l with
  | some r1 =>
    match matchCI "rating".data (r1.dropWhile isWsCh) with
    | some r3 => ratingTail r3
    | none => none
  | none => none

/-- `Power\s*Rating` + tail at one position. -/
def powerRatingAt (l : List Char) : Option Rat :=
  match matchCI "power".data l with
  | some r1 =>
    match matchCI "rating".data (r1.dropWhile isWsCh) with
    | some r3 => ratingTail r3
    | none => none
  | none => none

/-- `Rating` + tail at one position. -/
def ratingAt (l : List Char) : Option Rat :=
  match matchCI "rating".data l with
  | some r => ratingTail r
  | none => none

/-- Leftmost match of one `\b`-anchored pattern (the patterns start with a
letter, so the boundary needs a preceding non-word character). -/
def scanPat (pat : List Char → Option Rat) : Bool → List Char → Option Rat
  | _, [] => none
  | prevWord, c :: rest =>
    if !prevWord && isWordCh c then
      match pat (c :: rest) with
      | some v => some v
      | none => scanPat pat (isWordCh c) rest
    else scanPat pat (isWordCh c) rest

/-- `parseRating(text)`: the three labeled patterns in priority order; the
first pattern to match anywhere in the text wins. -/
def parseRating (text : List Char) : Option Rat :=
  match scanPat mhrRatingAt false text with
  | some v => some v
  | none =>
    match scanPat powerRatingAt false text with
    | some v => some v
    | none => scanPat ratingAt false text

end Scouting

namespace Scouting

/-! ## State-rank parser

`parseStateRank(text, hints)` of `src/unnamed/part_003` (lines 77–110):
US state full names (set-iteration order of the `STATES` object), then US
abbreviations, Canadian province names, province abbreviations, caller
hints, and finally the loose non-USA fallback, each a regex of the shape
`(\d+)(?:st|nd|rd|th)\s+NAME\s+(?:\d{1,2}U)\b(?:\s*[-–]\s*[\w ]+)?` with
the `i` flag. -/

/-- `(?:st|nd|rd|th)` (case-insensitive, in alternation order). -/
def ordSuffix (l : List Char) : Option (List Char) :=
  match matchCI "st".data l with
  | some r => some r
  | none =>
  match matchCI "nd".data l with
  | some r => some r
  | none =>
  match matchCI "rd".data l with
  | some r => some r
  | none => matchCI "th".data l

/-- `(?:\d{1,2}U)\b`: a full run of one or two digits, `U`, and a word
boundary after. -/
def levelTok (l : List Char) : Option (List Char) :=
  let (ds, r1) := spanP isDigitCh l
  if ds.isEmpty || 2 < ds.length then none
  else match r1 with
  | u :: rest =>
    if lowerEq u 'u' then
      match rest with
      | [] => some []
      | c :: _ => if isWordCh c then none else some rest
    else none
  | [] => none

/-- The optional `(?:\s*[-–]\s*[\w ]+)?` tail: consumed greedily when it
matches, otherwise nothing is consumed. -/
def rankTail (l : List Char) : List Char :=
  match l.dropWhile isWsCh with
  | c :: r2 =>
    if c = '-' ∨ c = '–' then
      let (run, r4) := spanP (fun d => isWordCh d || d = ' ') (r2.dropWhile isWsCh)
      if run.isEmpty then l else r4
    else l
  | [] => l

/-- `(\d+)(?:st|nd|rd|th)\s+NAME\s+(?:\d{1,2}U)\b…` at one position:
the capture `(\d+)` is the full digit run at the position, each `\s+` a
nonempty whitespace run, the name a case-insensitive literal. -/
def stateAt (nm : List Char) (l : List Char) : Option Nat :=
  if (l.takeWhile isDigitCh).isEmpty then none
  else match ordSuffix (l.dropWhile isDigitCh) with
  | some r2 =>
    if (r2.takeWhile isWsCh).isEmpty then none
    else match matchCI nm (r2.dropWhile isWsCh) with
    | some r4 =>
      if (r4.takeWhile isWsCh).isEmpty then none
      else match levelTok (r4.dropWhile isWsCh) with
      | some _ => some (digitsVal (l.takeWhile isDigitCh))
      | none => none
    | none => none
  | none => none

/-- Leftmost match of one name's rank pattern (`text.match(rx)`). -/
def scanState (nm : List Char) : List Char → Option Nat
  | [] => none
  | c :: rest =>
    match stateAt nm (c :: rest) with
    | some v => some v
    | none => scanState nm rest

/-- `STATE_NAMES` in set-insertion order (lower-cased `STATES` values). -/
def stateNamesOrdered : List String :=
  ["alabama", "alaska", "arizona", "arkansas", "california", "colorado",
   "connecticut", "delaware", "florida", "georgia", "hawaii", "idaho",
   "illinois", "indiana", "iowa", "kansas", "kentucky", "louisiana",
   "maine", "maryland", "massachusetts", "michigan", "minnesota",
   "mississippi", "missouri", "montana", "nebraska", "nevada",
   "new hampshire", "new jersey", "new mexico", "new york",
   "north carolina", "north dakota", "ohio", "oklahoma", "oregon",
   "pennsylvania", "rhode island", "south carolina", "south dakota",
   "tennessee", "texas", "utah", "vermont", "virginia",
   "washington", "west virginia", "wisconsin", "wyoming",
   "district of columbia"]

/-- `STATE_ABBRS` in set-insertion order. -/
def stateAbbrsOrdered : List String :=
  ["AL", "AK", "AZ", "AR", "CA", "CO", "CT", "DE", "FL", "GA", "HI", "ID",
   "IL", "IN", "IA", "KS", "KY", "LA", "ME", "MD", "MA", "MI", "MN", "MS",
   "MO", "MT", "NE", "NV", "NH", "NJ", "NM", "NY", "NC", "ND", "OH", "OK",
   "OR", "PA", "RI", "SC", "SD", "TN", "TX", "UT", "VT", "VA", "WA", "WV",
   "WI", "WY", "DC"]

/-- `PROVINCE_NAMES` in set-insertion order. -/
def provNamesOrdered : List String :=
  ["alberta", "british columbia", "manitoba", "new brunswick",
   "newfoundland and labrador", "nova scotia", "northwest territories",
   "nunavut", "ontario", "prince edward island", "quebec",
   "saskatchewan", "yukon"]

/-- `PROVINCE_ABBRS` in set-insertion order. -/
def provAbbrsOrdered : List String :=
  ["AB", "BC", "MB", "NB", "NL", "NS", "NT", "NU", "ON", "PE", "QC",
   "SK", "YT"]

/-- `[A-Za-z .'\-()]` of the loose fallback (`Char.ofNat 39` is the
apostrophe). -/
def isLabelCh (c : Char) : Bool :=
  isLetterCh c || c = ' ' || c = '.' || c = Char.ofNat 39 || c = '-' ||
    c = '(' || c = ')'

/-- Lazy `([A-Za-z .'\-()]+?)\s+(?:\d{1,2}U)\b(tail)?`: grow the label one
character at a time, after each character checking whether whitespace and a
level token follow; returns the label and the rest after the whole match. -/
def looseLabelGo (acc : List Char) : List Char → Option (List Char × List Char)
  | [] => none
  | c :: rest =>
    if isLabelCh c then
      let acc2 := acc ++ [c]
      let (ws, r1) := spanP isWsCh rest
      match (if ws.isEmpty then none else levelTok r1) with
      | some r2 => some (acc2, rankTail r2)
      | none => looseLabelGo acc2 rest
    else none

/-- The loose pattern at one position: capture, label, rest after match. -/
def looseAt (l : List Char) : Option (Nat × List Char × List Char) :=
  let (ds, r1) := spanP isDigitCh l
  if ds.isEmpty then none
  else match ordSuffix r1 with
  | some r2 =>
    let (ws1, r3) := spanP isWsCh r2
    if ws1.isEmpty then none
    else match looseLabelGo [] r3 with
    | some (label, rest) => some (digitsVal ds, label, rest)
    | none => none
  | none => none

/-- `/^USA\b/i.test(label)`. -/
def usaLabel (label : List Char) : Bool :=
  match matchCI "usa".data label with
  | some [] => true
  | some (c :: _) => !isWordCh c
  | none => false

/-- `/United\s+States/i` at one position. -/
def unitedStatesAt (l : List Char) : Bool :=
  match matchCI "united".data l with
  | some r1 =>
    let (ws, r2) := spanP isWsCh r1
    !ws.isEmpty && (matchCI "states".data r2).isSome
  | none => false

/-- `/United\s+States/i.test(label)`. -/
def hasUnitedStates : List Char → Bool
  | [] => false
  | c :: rest => unitedStatesAt (c :: rest) || hasUnitedStates rest

/-- The `rxLoose.exec` loop: find matches left to right, return the first
whose trimmed label is not `USA`/`United States`, resuming after each
rejected match. -/
def looseScanF : Nat → List Char → Option Nat
  | 0, _ => none
  | _ + 1, [] => none
  | fuel + 1, c :: rest =>
    match looseAt (c :: rest) with
    | some (v, label, after) =>
      let lab := trimL label
      if !usaLabel lab && !hasUnitedStates lab then some v
      else looseScanF fuel after
    | none => looseScanF fuel rest

/-- `parseStateRank(text, hints)`. -/
def parseStateRank (text : List Char) (hints : List (List Char)) : Option Nat :=
  match stateNamesOrdered.findSome? (fun nm => scanState nm.data text) with
  | some v => some v
  | none =>
  match stateAbbrsOrdered.findSome? (fun nm => scanState nm.data text) with
  | some v => some v
  | none =>
  match provNamesOrdered.findSome? (fun nm => scanState nm.data text) with
  | some v => some v
  | none =>
  match provAbbrsOrdered.findSome? (fun nm => scanState nm.data text) with
  | some v => some v
  | none =>
  match (hints.filter (fun h => !h.isEmpty)).findSome? (fun h => scanState h text) with
  | some v => some v
  | none => looseScanF (text.length + 1) text

end Scouting

namespace Scouting

/-! ## Input-shape predicates used by the theorem statements

The universally quantified theorems below range over texts built from a
distinguished core phrase with arbitrary surroundings; these decidable
predicates carve out the surroundings for which the claims are stated. -/

/-- Filler characters: whitespace and sentence punctuation (no letters, no
digits, no word characters, and no label/separator characters). -/
def softChar (c : Char) : Bool := c = ' ' || c = '.' || c = ','

/-- No ASCII letters anywhere (so no label or region name can overlap). -/
def noLetters (l : List Char) : Bool := l.all (fun c => !isLetterCh c)

/-- All characters are lower-case ASCII letters (the region-name tables). -/
def lowerLetters (l : List Char) : Bool :=
  l.all (fun c => isLetterCh c && (asciiLower c == c))

/-- Is a separator (of `parseOpponent`) detectable at some position? -/
def hasSep (f : List Char → Option Nat) : List Char → Bool
  | [] => (f []).isSome
  | c :: rest => (f (c :: rest)).isSome || hasSep f rest

/-- No separator is detectable strictly inside the first component `a` of a
title `a ++ sep ++ b` (`tail` is `sep ++ b`); the separator right after `a`
is not constrained. -/
def noEarlySep (f : List Char → Option Nat) (tail : List Char) : List Char → Bool
  | [] => true
  | [_] => true
  | _ :: c :: rest => !(f (c :: rest ++ tail)).isSome && noEarlySep f tail (c :: rest)

end Scouting

namespace Scouting

/-! ## Theorems -/

/-! ### Claim C3 — freshness policy -/

/-- C3: an opponent with a last-refreshed timestamp, a numeric rating and a
truthy record is skipped (not refreshed) exactly when the force flag is off
and the elapsed time since the timestamp is below `staleDays` days; with
`force`, or with any of the three fields missing, it is always refreshed.
The default staleness window is 7 days. -/
theorem freshness_skip_iff (force : Bool) (updatedAt : Option Int) (rating : Option Rat)
    (record : Option (List Char)) (now : Int) (staleDays : Int) :
    (shouldRefresh force updatedAt rating record now staleDays = false ↔
      force = false ∧ ∃ t, updatedAt = some t ∧ rating.isSome = true ∧
        jsTruthyS record = true ∧ now - t < staleDays * 86400000) ∧
    staleDaysOf none = 7 := by
  refine ⟨?_, rfl⟩
  unfold shouldRefresh skipCached
  cases force <;> cases updatedAt <;>
    simp [Bool.and_eq_true, decide_eq_true_eq, and_assoc]

/-! ### Claim C10 — `safeNumber` and rating safety -/

/-- Helper: anything `safeNumber` lets through is a strictly positive
finite number. -/
theorem safeNumber_pos {x : Option JSNum} {q : Rat}
    (h : safeNumber x = some (JSNum.fin q)) : 0 < q := by
  cases x with
  | none => simp [safeNumber] at h
  | some n =>
    cases n with
    | fin r =>
      by_cases hr : 0 < r
      · simp [safeNumber, JSNum.isFiniteJS, JSNum.gtZero, hr] at h
        simpa [← h] using hr
      · simp [safeNumber, JSNum.isFiniteJS, JSNum.gtZero, hr] at h
    | nan => simp [safeNumber, JSNum.isFiniteJS] at h
    | posInf => simp [safeNumber, JSNum.isFiniteJS] at h
    | negInf => simp [safeNumber, JSNum.isFiniteJS] at h

theorem guardedRating_pos {info : ParsedInfo} {q : Rat}
    (h : guardedRating info = some q) : 0 < q := by
  unfold guardedRating at h
  rcases hs : safeNumber info.rating with _ | n
  · rw [hs] at h; simp at h
  · rw [hs] at h
    cases n with
    | fin r =>
      simp at h
      subst h
      exact safeNumber_pos hs
    | nan => simp at h
    | posInf => simp at h
    | negInf => simp at h

theorem applyStateRank_rating (t : TeamFields) (v : Option Rat) :
    (applyStateRank t v).1.rating = t.rating := by
  cases v with
  | none => rfl
  | some q => simp only [applyStateRank]; split <;> rfl

theorem applyNationalRank_rating (t : TeamFields) (v : Option Rat) :
    (applyNationalRank t v).1.rating = t.rating := by
  cases v with
  | none => rfl
  | some q => simp only [applyNationalRank]; split <;> rfl

theorem applyRecord_rating (t : TeamFields) (v : Option (List Char)) :
    (applyRecord t v).1.rating = t.rating := by
  cases v with
  | none => rfl
  | some s => simp only [applyRecord]; split <;> rfl

/-- The stamping of `lastUpdated` and the record/rank steps do not touch
the rating; its final value is whatever the rating step produced. -/
theorem updateOneTeamApply_rating (team : TeamFields) (info : ParsedInfo) (today : List Char) :
    (updateOneTeamApply team info today).1.rating =
      (applyRating (applyNationalRank (applyStateRank team info.stateRank).1
        info.nationalRank).1 (guardedRating info)).1.rating := by
  unfold updateOneTeamApply
  dsimp only
  split <;> simp [applyRecord_rating]

theorem stamp_rating (t : TeamFields) (c : Bool) (d : List Char) :
    (if c = true then { t with lastUpdated := some d } else t).rating = t.rating := by
  split <;> rfl

/-- C10: `safeNumber(n)` returns `n` exactly when `n` is a finite number
strictly greater than zero (so a parsed rating of 0, a negative value, or a
non-finite value is treated as absent); consequently `updateOneTeam` either
leaves the stored rating untouched or replaces it with a strictly positive
finite value. -/
theorem safeNumber_spec :
    (∀ (x : Option JSNum) (y : JSNum),
        safeNumber x = some y ↔ x = some y ∧ ∃ q, y = JSNum.fin q ∧ 0 < q) ∧
    (∀ (team : TeamFields) (info : ParsedInfo) (today : List Char),
        (updateOneTeamApply team info today).1.rating = team.rating ∨
          ∃ q, (updateOneTeamApply team info today).1.rating = some q ∧ 0 < q) := by
  constructor
  · intro x y
    constructor
    · intro h
      cases x with
      | none => simp [safeNumber] at h
      | some n =>
        cases n with
        | fin r =>
          by_cases hr : 0 < r
          · simp [safeNumber, JSNum.isFiniteJS, JSNum.gtZero, hr] at h
            subst h
            exact ⟨rfl, r, rfl, hr⟩
          · simp [safeNumber, JSNum.isFiniteJS, JSNum.gtZero, hr] at h
        | nan => simp [safeNumber, JSNum.isFiniteJS] at h
        | posInf => simp [safeNumber, JSNum.isFiniteJS] at h
        | negInf => simp [safeNumber, JSNum.isFiniteJS] at h
    · rintro ⟨hx, q, hy, hq⟩
      subst hx; subst hy
      simp [safeNumber, JSNum.isFiniteJS, JSNum.gtZero, hq]
  · intro team info today
    rw [updateOneTeamApply_rating]
    rcases hgr : guardedRating info with _ | q
    · left
      simp only [applyRating, applyNationalRank_rating, applyStateRank_rating]
    · have hq : 0 < q := guardedRating_pos hgr
      right
      refine ⟨q, ?_, hq⟩
      simp only [applyRating]
      split
      · rfl
      · next h => exact not_not.mp h

/-! ### Claim C4 — deduplication key ignores the per-event identifier -/

/-- C4: two normalized game records that agree on date, time,
case-insensitive opponent, and source receive the same deduplication key no
matter what their per-event source identifiers (`sourceId`, `sourceUrl`)
are; two raw events identical up to their identifiers normalize to records
with the same key; and deduplication collapses two key-equal records to the
first one. -/
theorem dedup_key_collapses_ids :
    (∀ g1 g2 : Game, g1.date = g2.date → g1.time = g2.time →
        lowerL g1.opponent = lowerL g2.opponent → g1.source = g2.source →
        gameDedupKey g1 = gameDedupKey g2) ∧
    (∀ (ev1 ev2 : RawEvent) (self source : List Char),
        ev1.start = ev2.start → ev1.title = ev2.title → ev1.summary = ev2.summary →
        gameDedupKey (normalizeEvent ev1 self source) =
          gameDedupKey (normalizeEvent ev2 self source)) ∧
    (∀ g1 g2 : Game, gameDedupKey g1 = gameDedupKey g2 →
        dedupeGames [g1, g2] = [g1]) := by
  refine ⟨?_, ?_, ?_⟩
  · intro g1 g2 hd ht ho hs
    unfold gameDedupKey
    rw [hd, ht, ho, hs]
  · intro ev1 ev2 self source hs ht hsum
    unfold normalizeEvent gameDedupKey
    simp only [hs, ht, hsum]
  · intro g1 g2 hk
    have h2 : List.contains [gameDedupKey g1] (gameDedupKey g2) = true := by
      rw [hk]; simp
    simp [dedupeGames, dedupeGo, h2, hk]

/-! ### Claim C1 — history merge of `append-ranks-to-history.mjs` -/

theorem filter_ne_date_idem (l : List HistoryPoint) (d : List Char) :
    (l.filter (fun h => h.date != d)).filter (fun h => h.date != d) =
      l.filter (fun h => h.date != d) := by
  induction l with
  | nil => rfl
  | cons x r ih =>
    rcases hb : (x.date != d) with _ | _
    · simp [List.filter_cons, hb, ih]
    · simp [List.filter_cons, hb, ih]

theorem filter_eq_of_filter_ne (l : List HistoryPoint) (d : List Char) :
    (l.filter (fun h => h.date != d)).filter (fun h => h.date == d) = [] := by
  induction l with
  | nil => rfl
  | cons x r ih =>
    rcases hb : (x.date != d) with _ | _
    · simp [List.filter_cons, hb, ih]
    · have hq : (x.date == d) = false := by
        simpa [bne] using hb
      simp [List.filter_cons, hb, hq, ih]

theorem mkEntry_date (today : List Char) (team : TeamSnap) (hist : List HistoryPoint) :
    (mkEntry today team hist).date = today := rfl

/-- Rebuilding the entry after the merge reproduces the same entry: the
rank fields come from the team file, and the rating falls back to the last
entry of the merged series, which is the entry itself. -/
theorem mkEntry_append (today : List Char) (team : TeamSnap) (hist m : List HistoryPoint) :
    mkEntry today team (m ++ [mkEntry today team hist]) = mkEntry today team hist := by
  unfold mkEntry
  cases hr : team.rating with
  | some r => rfl
  | none =>
    simp only [lastRating, List.getLast?_append_cons, List.getLast?_singleton,
      Option.some_bind]

theorem datesDistinct_iff (l : List HistoryPoint) :
    datesDistinct l = true ↔ l.Pairwise (fun a b => a.date ≠ b.date) := by
  induction l with
  | nil => simp [datesDistinct]
  | cons e r ih =>
    simp only [datesDistinct, Bool.and_eq_true, List.all_eq_true, bne_iff_ne,
      List.pairwise_cons, ih]
    constructor
    · rintro ⟨h1, h2⟩
      exact ⟨fun x hx => (h1 x hx).symm, h2⟩
    · rintro ⟨h1, h2⟩
      exact ⟨fun x hx => (h1 x hx).symm, h2⟩

/-- C1 (amended): the history merge of `append-ranks-to-history.mjs` is
idempotent within a calendar day; the merged series always has exactly one
entry dated today; and the one-entry-per-day invariant is preserved
whenever the existing series already satisfies it.  (As frozen, the claim
asserted at-most-one-entry-per-day for the merged series over *every*
existing series; the merge only dedups today's date, so a pre-existing
duplicate on a past day survives — see the counterexample.) -/
theorem history_merge_spec (hist : List HistoryPoint) (team : TeamSnap) (today : List Char) :
    appendTodaySnapshot (appendTodaySnapshot hist team today) team today =
      appendTodaySnapshot hist team today ∧
    ((appendTodaySnapshot hist team today).filter (fun h => h.date == today)).length = 1 ∧
    (datesDistinct hist = true →
      datesDistinct (appendTodaySnapshot hist team today) = true) := by
  refine ⟨?_, ?_, ?_⟩
  · unfold appendTodaySnapshot
    rw [List.filter_append, mkEntry_append]
    simp [filter_ne_date_idem, List.filter, mkEntry_date]
  · unfold appendTodaySnapshot
    rw [List.filter_append, filter_eq_of_filter_ne]
    simp [List.filter, mkEntry_date]
  · intro hinv
    unfold appendTodaySnapshot
    rw [datesDistinct_iff] at hinv ⊢
    rw [List.pairwise_append]
    refine ⟨hinv.sublist (List.filter_sublist _), by simp, ?_⟩
    intro a ha b hb
    have ha2 := (List.mem_filter.mp ha).2
    simp only [bne_iff_ne, decide_eq_true_eq] at ha2
    simp only [List.mem_singleton] at hb
    subst hb
    rw [mkEntry_date]
    exact ha2

/-- C1 counterexample: on an existing series holding two entries for the
same past day, the merged series still holds both — the merge does not
enforce one-entry-per-day globally, only for today's date. -/
theorem history_merge_cex :
    datesDistinct (appendTodaySnapshot
      [⟨"2025-01-01".data, some 1, none, none⟩, ⟨"2025-01-01".data, some 2, none, none⟩]
      ⟨some 3, none, none⟩ "2025-10-11".data) = false := by decide

/-- C1 witness. -/
theorem history_merge_spec_witness :
    datesDistinct [(⟨"2025-10-10".data, some 86, none, none⟩ : HistoryPoint)] = true ∧
    datesDistinct (appendTodaySnapshot [⟨"2025-10-10".data, some 86, none, none⟩]
      ⟨some 87, some 3, none⟩ "2025-10-11".data) = true := by
  refine ⟨by decide, ?_⟩
  exact (history_merge_spec [⟨"2025-10-10".data, some 86, none, none⟩]
    ⟨some 87, some 3, none⟩ "2025-10-11".data).2.2 (by decide)

end Scouting

namespace Scouting

/-! ### Claim C4 witness -/

/-- C4 witness: two concrete normalized records agreeing on date, time,
case-insensitive opponent and source, with different `sourceId`s, get one
key and collapse to one record. -/
theorem dedup_key_collapses_ids_witness :
    gameDedupKey ⟨"2025-10-01".data, some "18:30".data, "Rockets A1".data, HomeAway.Home,
        false, none, none, "ics".data, some "id1".data, none⟩ =
      gameDedupKey ⟨"2025-10-01".data, some "18:30".data, "rockets a1".data, HomeAway.Home,
        false, none, none, "ics".data, some "id2".data, none⟩ ∧
    dedupeGames
      [⟨"2025-10-01".data, some "18:30".data, "Rockets A1".data, HomeAway.Home,
        false, none, none, "ics".data, some "id1".data, none⟩,
       ⟨"2025-10-01".data, some "18:30".data, "rockets a1".data, HomeAway.Home,
        false, none, none, "ics".data, some "id2".data, none⟩] =
      [⟨"2025-10-01".data, some "18:30".data, "Rockets A1".data, HomeAway.Home,
        false, none, none, "ics".data, some "id1".data, none⟩] := by
  have h := dedup_key_collapses_ids
  have hk := h.1
    ⟨"2025-10-01".data, some "18:30".data, "Rockets A1".data, HomeAway.Home,
      false, none, none, "ics".data, some "id1".data, none⟩
    ⟨"2025-10-01".data, some "18:30".data, "rockets a1".data, HomeAway.Home,
      false, none, none, "ics".data, some "id2".data, none⟩
    rfl rfl (by decide) rfl
  exact ⟨hk, h.2.2 _ _ hk⟩

/-! ### Claim C6 — no-op runs of `updateTeam` -/

/-- C6 (amended): when the parsed rating and record match the stored team
values, `updateTeam` reports `changed = false` and does not write the team
file; the history series and its file are left untouched **provided** an
entry dated today with the same rating is already the last history entry.
(As frozen, the claim promised a byte-identical series and no write on any
non-gated day without value change; the script has no weekday gate and
appends a new dated entry — with a history-file write — whenever the last
entry's date differs from today, even if the rating is unchanged.  See the
counterexample.) -/
theorem updateTeam_noop_same_day (team : TeamFile2) (hist : List RatingPoint)
    (rating : Option Rat) (record : Option (List Char)) (today : List Char)
    (hr : rating = team.rating)
    (hrec : record = team.record ∨ jsTruthyS record = false)
    (hlast : hist.getLast? = some ⟨today, rating⟩) :
    (updateTeamCore team hist rating record today).changed = false ∧
    (updateTeamCore team hist rating record today).hist = hist ∧
    (updateTeamCore team hist rating record today).wroteHist = false ∧
    (updateTeamCore team hist rating record today).team =
      { team with lastUpdated := some today } := by
  cases rating with
  | none =>
    rcases hrec with hrec | hrec
    · simp [updateTeamCore, hrec, hlast]
    · simp [updateTeamCore, hrec, hlast]
  | some r =>
    have ht : team.rating = some r := hr.symm
    rcases hrec with hrec | hrec
    · simp [updateTeamCore, ht, hrec, hlast]
    · simp [updateTeamCore, ht, hrec, hlast]

/-- C6 counterexample: with yesterday's entry last in the series and an
unchanged rating and record, the run still appends a new entry dated today
and writes the history file — the series is not byte-identical and a file
write occurs. -/
theorem updateTeam_new_day_appends_cex :
    (updateTeamCore ⟨some 86, some "10-4-2".data, some "2025-10-10".data, some "u".data⟩
        [⟨"2025-10-10".data, some 86⟩] (some 86) (some "10-4-2".data)
        "2025-10-11".data).changed = false ∧
    (updateTeamCore ⟨some 86, some "10-4-2".data, some "2025-10-10".data, some "u".data⟩
        [⟨"2025-10-10".data, some 86⟩] (some 86) (some "10-4-2".data)
        "2025-10-11".data).wroteHist = true ∧
    (updateTeamCore ⟨some 86, some "10-4-2".data, some "2025-10-10".data, some "u".data⟩
        [⟨"2025-10-10".data, some 86⟩] (some 86) (some "10-4-2".data)
        "2025-10-11".data).hist ≠ [⟨"2025-10-10".data, some 86⟩] := by decide

/-- C6 witness. -/
theorem updateTeam_noop_same_day_witness :
    (updateTeamCore ⟨some 86, some "10-4-2".data, some "2025-10-11".data, some "u".data⟩
        [⟨"2025-10-11".data, some 86⟩] (some 86) (some "10-4-2".data)
        "2025-10-11".data).changed = false ∧
    (updateTeamCore ⟨some 86, some "10-4-2".data, some "2025-10-11".data, some "u".data⟩
        [⟨"2025-10-11".data, some 86⟩] (some 86) (some "10-4-2".data)
        "2025-10-11".data).hist = [⟨"2025-10-11".data, some 86⟩] ∧
    (updateTeamCore ⟨some 86, some "10-4-2".data, some "2025-10-11".data, some "u".data⟩
        [⟨"2025-10-11".data, some 86⟩] (some 86) (some "10-4-2".data)
        "2025-10-11".data).wroteHist = false := by
  have h := updateTeam_noop_same_day
    ⟨some 86, some "10-4-2".data, some "2025-10-11".data, some "u".data⟩
    [⟨"2025-10-11".data, some 86⟩] (some 86) (some "10-4-2".data) "2025-10-11".data
    rfl (Or.inl rfl) rfl
  exact ⟨h.1, h.2.1, h.2.2.1⟩

/-! ### Claim C9 — fetch failures are contained -/

/-- C9: if the fetch for one entity fails, that entity's step only logs a
warning — neither its team file nor its history file is written and its
state is unchanged — while every other entity is still processed (one log
per input) and the run finishes with exit code 0. -/
theorem fetch_failure_isolated (findR : List Char → Option Rat)
    (findRec : List Char → Option (List Char)) (today : List Char)
    (entities : List (EntityState × FetchRes)) (i : Nat) (e : EntityState)
    (msg u : List Char)
    (hu : e.team.mhrUrl = some u)
    (hi : entities[i]? = some (e, FetchRes.err msg)) :
    (runMain findR findRec today entities).1[i]? = some ⟨true, false, false, e⟩ ∧
    (runMain findR findRec today entities).1.length = entities.length ∧
    (runMain findR findRec today entities).2 = 0 := by
  refine ⟨?_, by simp [runMain], rfl⟩
  simp [runMain, List.getElem?_map, hi, updateTeamStep, hu]

/-- C9 witness: a one-entity run whose only fetch fails. -/
theorem fetch_failure_isolated_witness :
    (runMain (fun _ => none) (fun _ => none) "2025-10-11".data
        [(⟨⟨none, none, none, some "u".data⟩, []⟩, FetchRes.err "HTTP 500".data)]).1[0]? =
      some ⟨true, false, false, ⟨⟨none, none, none, some "u".data⟩, []⟩⟩ ∧
    (runMain (fun _ => none) (fun _ => none) "2025-10-11".data
        [(⟨⟨none, none, none, some "u".data⟩, []⟩, FetchRes.err "HTTP 500".data)]).1.length = 1 ∧
    (runMain (fun _ => none) (fun _ => none) "2025-10-11".data
        [(⟨⟨none, none, none, some "u".data⟩, []⟩, FetchRes.err "HTTP 500".data)]).2 = 0 := by
  have h := fetch_failure_isolated (fun _ => none) (fun _ => none) "2025-10-11".data
    [(⟨⟨none, none, none, some "u".data⟩, []⟩, FetchRes.err "HTTP 500".data)] 0
    ⟨⟨none, none, none, some "u".data⟩, []⟩ "HTTP 500".data "u".data rfl rfl
  exact ⟨h.1, h.2.1, h.2.2⟩

end Scouting

namespace Scouting

/-! ### Claim C5 — title-pattern heuristics of `parseOpponent` -/

theorem hasSep_cons_elim {f : List Char → Option Nat} {c : Char} {rest : List Char}
    (h : hasSep f (c :: rest) = false) :
    f (c :: rest) = none ∧ hasSep f rest = false := by
  unfold hasSep at h
  rcases hf : f (c :: rest) with _ | n
  · rw [hf] at h; simpa using h
  · rw [hf] at h; simp at h

theorem hasSep_self_none {f : List Char → Option Nat} {t : List Char}
    (h : hasSep f t = false) : f t = none := by
  cases t with
  | nil =>
    unfold hasSep at h
    rcases hf : f [] with _ | n
    · rfl
    · rw [hf] at h; simp at h
  | cons c r => exact (hasSep_cons_elim h).1

theorem splitSep_none {f : List Char → Option Nat} :
    ∀ t, hasSep f t = false → splitSep f t = none := by
  intro t
  induction t with
  | nil => intro _; rfl
  | cons c rest ih =>
    intro h
    simp only [splitSep, hasSep_self_none (hasSep_cons_elim h).2,
      ih (hasSep_cons_elim h).2]

theorem execSepAux_none {f : List Char → Option Nat} :
    ∀ t (prev : Bool), hasSep f t = false → execSepAux f prev t = none := by
  intro t
  induction t with
  | nil => intro prev _; rfl
  | cons c rest ih =>
    intro prev h
    unfold execSepAux
    have hsp := splitSep_none _ h
    by_cases hb : (prev ≠ isWordCh c)
    · simp only [if_pos hb, hsp]
      exact ih _ (hasSep_cons_elim h).2
    · simp only [if_neg hb]
      exact ih _ (hasSep_cons_elim h).2

theorem execSep_none {f : List Char → Option Nat} {t : List Char}
    (h : hasSep f t = false) : execSep f t = none :=
  execSepAux_none t false h

/-- One-step unfolding of `splitSep` on a cons cell. -/
theorem splitSep_cons (f : List Char → Option Nat) (c : Char) (rest : List Char) :
    splitSep f (c :: rest) =
      match f rest with
      | some n =>
        if (rest.drop n).isEmpty then
          match splitSep f rest with
          | some (a, b) => some (c :: a, b)
          | none => none
        else some ([c], rest.drop n)
      | none =>
        match splitSep f rest with
        | some (a, b) => some (c :: a, b)
        | none => none := rfl

/-- The lazy split lands exactly on the separator after `a` when no earlier
position matches and the remainder is nonempty. -/
theorem splitSep_concat {f : List Char → Option Nat} :
    ∀ (a tail : List Char) (n : Nat), a ≠ [] →
      noEarlySep f tail a = true → f tail = some n → tail.drop n ≠ [] →
      splitSep f (a ++ tail) = some (a, tail.drop n) := by
  intro a
  induction a with
  | nil => intro tail n h; exact absurd rfl h
  | cons x xs ih =>
    intro tail n _ hne hf hd
    cases xs with
    | nil =>
      have hde : (tail.drop n).isEmpty = false := by
        rcases he : tail.drop n with _ | _
        · exact absurd he hd
        · rfl
      rw [List.cons_append, List.nil_append, splitSep_cons, hf]
      simp [hde]
    | cons y ys =>
      have hne2 : (f (y :: ys ++ tail)).isSome = false ∧ noEarlySep f tail (y :: ys) = true := by
        unfold noEarlySep at hne
        simpa [Bool.and_eq_true] using hne
      have hf0 : f (y :: (ys ++ tail)) = none := by
        rcases hval : f (y :: (ys ++ tail)) with _ | m
        · rfl
        · rw [List.cons_append] at hne2
          rw [hval] at hne2
          simp at hne2
      have hrec := ih tail n (by simp) hne2.2 hf hd
      rw [List.cons_append] at hrec
      rw [List.cons_append, List.cons_append, splitSep_cons, hf0, hrec]

theorem execSep_concat {f : List Char → Option Nat} {c : Char} {a' tail : List Char}
    {r : List Char × List Char} (hw : isWordCh c = true)
    (hs : splitSep f (c :: a' ++ tail) = some r) :
    execSep f (c :: a' ++ tail) = some r := by
  simp only [List.cons_append] at hs ⊢
  unfold execSep execSepAux
  simp [hw, hs]

/-- C5: on a whitespace-normal title `<A> @ <B>` (first character of `A` a
word character, `B` nonempty, no `vs` separator anywhere, and the `@`
separator after `A` the first one), `parseOpponent` returns: opponent `B`,
Away, when `A` contains the self name (case-insensitively); opponent `A`,
Home, when `B` contains it; opponent `B`, Neutral, otherwise.  On a title
`<A> vs <B>` whose `A` contains the self name it returns opponent `B`,
Home. -/
theorem parseOpponent_patterns (c : Char) (a' b self : List Char)
    (hw : isWordCh c = true) (hb : b ≠ [])
    (hta : trimL (c :: a') = c :: a') (htb : trimL b = b)
    (hnorm1 : normalizeTitle (c :: a' ++ ' ' :: '@' :: ' ' :: b) =
      c :: a' ++ ' ' :: '@' :: ' ' :: b)
    (hnorm2 : normalizeTitle (c :: a' ++ ' ' :: 'v' :: 's' :: ' ' :: b) =
      c :: a' ++ ' ' :: 'v' :: 's' :: ' ' :: b)
    (hvs : hasSep vsSepLen (c :: a' ++ ' ' :: '@' :: ' ' :: b) = false)
    (he1 : noEarlySep atSepLen (' ' :: '@' :: ' ' :: b) (c :: a') = true)
    (he2 : noEarlySep vsSepLen (' ' :: 'v' :: 's' :: ' ' :: b) (c :: a') = true) :
    (containsCI (c :: a') self = true →
      parseOpponent (c :: a' ++ ' ' :: '@' :: ' ' :: b) self = ⟨b, HomeAway.Away⟩) ∧
    (containsCI (c :: a') self = false → containsCI b self = true →
      parseOpponent (c :: a' ++ ' ' :: '@' :: ' ' :: b) self = ⟨c :: a', HomeAway.Home⟩) ∧
    (containsCI (c :: a') self = false → containsCI b self = false →
      parseOpponent (c :: a' ++ ' ' :: '@' :: ' ' :: b) self = ⟨b, HomeAway.Neutral⟩) ∧
    (containsCI (c :: a') self = true →
      parseOpponent (c :: a' ++ ' ' :: 'v' :: 's' :: ' ' :: b) self = ⟨b, HomeAway.Home⟩) := by
  have hbne : ∀ x : List Char, b ≠ [] → (' ' :: '@' :: ' ' :: b).drop 3 ≠ [] := by
    intro _ h; simpa using h
  have hat : execSep atSepLen (c :: a' ++ ' ' :: '@' :: ' ' :: b) = some (c :: a', b) := by
    apply execSep_concat hw
    have := splitSep_concat (c :: a') (' ' :: '@' :: ' ' :: b) 3
      (by simp) he1 rfl (by simpa using hb)
    simpa using this
  have hvsn : execSep vsSepLen (c :: a' ++ ' ' :: '@' :: ' ' :: b) = none := execSep_none hvs
  have hvsT : execSep vsSepLen (c :: a' ++ ' ' :: 'v' :: 's' :: ' ' :: b) =
      some (c :: a', b) := by
    apply execSep_concat hw
    have := splitSep_concat (c :: a') (' ' :: 'v' :: 's' :: ' ' :: b) 4
      (by simp) he2 rfl (by simpa using hb)
    simpa using this
  refine ⟨?_, ?_, ?_, ?_⟩
  · intro h1
    simp only [parseOpponent, hnorm1, hvsn, hat, h1, htb]
    simp
  · intro h1 h2
    simp only [parseOpponent, hnorm1, hvsn, hat, h1, h2, htb, hta]
    simp
  · intro h1 h2
    simp only [parseOpponent, hnorm1, hvsn, hat, h1, h2, htb]
    simp
  · intro h1
    simp only [parseOpponent, hnorm2, hvsT, h1, htb]
    simp

end Scouting

namespace Scouting

/-- C5 witness: the spec's own examples, including
"Chesterfield 12U A1 vs Rockets A1" ⇒ Home vs Rockets A1 and
"Rockets A1 @ Chesterfield 12U A1" ⇒ Home vs Rockets A1. -/
theorem parseOpponent_patterns_witness :
    parseOpponent "Chesterfield 12U A1 @ Rockets A1".data "Chesterfield 12U A1".data =
      ⟨"Rockets A1".data, HomeAway.Away⟩ ∧
    parseOpponent "Rockets A1 @ Chesterfield 12U A1".data "Chesterfield 12U A1".data =
      ⟨"Rockets A1".data, HomeAway.Home⟩ ∧
    parseOpponent "Falcons @ Bears".data "Chesterfield".data =
      ⟨"Bears".data, HomeAway.Neutral⟩ ∧
    parseOpponent "Chesterfield 12U A1 vs Rockets A1".data "Chesterfield 12U A1".data =
      ⟨"Rockets A1".data, HomeAway.Home⟩ := by
  refine ⟨?_, ?_, ?_, ?_⟩
  · exact (parseOpponent_patterns 'C' "hesterfield 12U A1".data "Rockets A1".data
      "Chesterfield 12U A1".data (by decide) (by decide) (by decide) (by decide)
      (by decide) (by decide) (by decide) (by decide) (by decide)).1 (by decide)
  · exact (parseOpponent_patterns 'R' "ockets A1".data "Chesterfield 12U A1".data
      "Chesterfield 12U A1".data (by decide) (by decide) (by decide) (by decide)
      (by decide) (by decide) (by decide) (by decide) (by decide)).2.1
      (by decide) (by decide)
  · exact (parseOpponent_patterns 'F' "alcons".data "Bears".data
      "Chesterfield".data (by decide) (by decide) (by decide) (by decide)
      (by decide) (by decide) (by decide) (by decide) (by decide)).2.2.1
      (by decide) (by decide)
  · exact (parseOpponent_patterns 'C' "hesterfield 12U A1".data "Rockets A1".data
      "Chesterfield 12U A1".data (by decide) (by decide) (by decide) (by decide)
      (by decide) (by decide) (by decide) (by decide) (by decide)).2.2.2 (by decide)

end Scouting

namespace Scouting

/-! ### Claim C7 — rating parser -/

theorem softChar_not_word {c : Char} (h : softChar c = true) : isWordCh c = false := by
  have h2 : (c = ' ' ∨ c = '.') ∨ c = ',' := by simpa [softChar] using h
  rcases h2 with (h2 | h2) | h2 <;> subst h2 <;> decide

/-- One-step unfolding of `scanPat`. -/
theorem scanPat_cons (pat : List Char → Option Rat) (prev : Bool) (c : Char)
    (rest : List Char) :
    scanPat pat prev (c :: rest) =
      if !prev && isWordCh c then
        match pat (c :: rest) with
        | some v => some v
        | none => scanPat pat (isWordCh c) rest
      else scanPat pat (isWordCh c) rest := rfl

/-- Scanning starts past a filler prefix: filler characters are not word
characters, so no `\b`-anchored pattern can start inside or after them. -/
theorem scanPat_append_soft (pat : List Char → Option Rat) :
    ∀ (p : List Char) (rest : List Char), p.all softChar = true →
      scanPat pat false (p ++ rest) = scanPat pat false rest := by
  intro p
  induction p with
  | nil => intro rest _; rfl
  | cons c cs ih =>
    intro rest hp
    rw [List.all_cons, Bool.and_eq_true] at hp
    have hw := softChar_not_word hp.1
    rw [List.cons_append, scanPat_cons, hw]
    rw [if_neg (by decide : ¬((!false && false) = true))]
    exact ih rest hp.2

theorem scanPat_hit {pat : List Char → Option Rat} {c : Char} {rest : List Char} {v : Rat}
    (hw : isWordCh c = true) (h : pat (c :: rest) = some v) :
    scanPat pat false (c :: rest) = some v := by
  rw [scanPat_cons, hw, h]
  simp

/-- C7 (amended): on a text made of a filler prefix (spaces and sentence
punctuation), the phrase `MHR Rating: 86.07`, and any suffix that does not
start with more digits of the number, the rating parser returns 86.07; and
the labeled patterns are tried in the priority order MHR → Power → generic,
the first *pattern* to match winning, as the concrete text with an earlier
"Power Rating:" label shows.  (As frozen, the claim quantified over every
text containing the phrase; a text whose first "MHR Rating:" label carries
a different number makes it fail — see the counterexample.) -/
theorem parseRating_mhr (p s : List Char)
    (hp : p.all softChar = true) (hs : s.takeWhile isDigitCh = []) :
    parseRating (p ++ "MHR Rating: 86.07".data ++ s) = some (mkRat 8607 100) ∧
    parseRating "Power Rating: 70.5 and MHR Rating: 86.07".data =
      some (mkRat 8607 100) := by
  refine ⟨?_, by decide⟩
  have h2 : mhrRatingAt ("MHR Rating: 86.07".data ++ s) =
      some (decimalVal "86".data ('0' :: '7' :: s.takeWhile isDigitCh)) := rfl
  rw [hs] at h2
  have h3 : scanPat mhrRatingAt false ("MHR Rating: 86.07".data ++ s) =
      some (decimalVal "86".data ['0', '7']) :=
    scanPat_hit (by decide) h2
  have h4 : decimalVal "86".data ['0', '7'] = mkRat 8607 100 := by decide
  unfold parseRating
  rw [List.append_assoc, scanPat_append_soft _ p _ hp, h3, h4]

/-- C7 counterexample: the parser returns the number at the *first*
`MHR Rating:` label; a text containing "MHR Rating: 86.07" after an earlier
`MHR Rating: 50` yields 50, not 86.07. -/
theorem parseRating_first_label_cex :
    parseRating "MHR Rating: 50 MHR Rating: 86.07".data = some 50 := by decide

/-- C7 witness. -/
theorem parseRating_mhr_witness :
    parseRating " MHR Rating: 86.07 (at MHR)".data = some (mkRat 8607 100) ∧
    parseRating "Power Rating: 70.5 and MHR Rating: 86.07".data =
      some (mkRat 8607 100) := by
  have h := parseRating_mhr [' '] " (at MHR)".data (by decide) (by decide)
  exact ⟨h.1, h.2⟩

end Scouting

namespace Scouting

/-! ### Claim C2 — record parser -/

/-- One-step unfolding of `labeledScan`. -/
theorem labeledScan_cons (prev : Bool) (c : Char) (rest : List Char) :
    labeledScan prev (c :: rest) =
      if !prev && isWordCh c then
        match labeledAt (c :: rest) with
        | some r => some r
        | none => labeledScan (isWordCh c) rest
      else labeledScan (isWordCh c) rest := rfl

/-- The labeled-record scan starts past a filler prefix. -/
theorem labeledScan_append_soft :
    ∀ (p : List Char) (rest : List Char), p.all softChar = true →
      labeledScan false (p ++ rest) = labeledScan false rest := by
  intro p
  induction p with
  | nil => intro rest _; rfl
  | cons c cs ih =>
    intro rest hp
    rw [List.all_cons, Bool.and_eq_true] at hp
    have hw := softChar_not_word hp.1
    rw [List.cons_append, labeledScan_cons, hw]
    rw [if_neg (by decide : ¬((!false && false) = true))]
    exact ih rest hp.2

theorem labeledScan_hit {c : Char} {rest : List Char}
    {r : List Char × List Char × List Char}
    (hw : isWordCh c = true) (h : labeledAt (c :: rest) = some r) :
    labeledScan false (c :: rest) = some r := by
  rw [labeledScan_cons, hw, h]
  simp

/-- C2 (amended): on a text made of a filler prefix (spaces and sentence
punctuation), the labeled phrase `Record: 10-4-2`, and any suffix that does
not begin with further digits — e.g. one containing the unrelated date
`2025-10-01` — the record parser returns `10-4-2`, the labeled value, and
never anything taken from the date: the labeled pass matches before the
triplet fallback ever runs.  (As frozen, the claim quantified over every
text containing the phrase; a text in which another labeled record occurs
earlier returns that value instead — see the counterexample.) -/
theorem parseRecord_labeled (p s : List Char)
    (hp : p.all softChar = true) (hs : s.takeWhile isDigitCh = []) :
    parseRecord (p ++ "Record: 10-4-2".data ++ s) = some "10-4-2".data := by
  have h2 : labeledAt ("Record: 10-4-2".data ++ s) =
      some ("10".data, "4".data, '2' :: (s.takeWhile isDigitCh).take 2) := rfl
  rw [hs] at h2
  simp only [List.take_nil] at h2
  have h3 : labeledScan false ("Record: 10-4-2".data ++ s) =
      some ("10".data, "4".data, ['2']) := labeledScan_hit (by decide) h2
  simp only [parseRecord]
  rw [List.append_assoc, labeledScan_append_soft p _ hp, h3]
  rfl

/-- C2 counterexample: the labeled pass returns the value at the *first*
labeled match; with an earlier `Overall: 1-1-1`, a text containing
`Record: 10-4-2` and the date `2025-10-01` yields `1-1-1`, not `10-4-2`. -/
theorem parseRecord_first_label_cex :
    parseRecord "Overall: 1-1-1 Record: 10-4-2 on 2025-10-01".data = some "1-1-1".data ∧
    containsCI "Overall: 1-1-1 Record: 10-4-2 on 2025-10-01".data "Record: 10-4-2".data
      = true ∧
    containsCI "Overall: 1-1-1 Record: 10-4-2 on 2025-10-01".data "2025-10-01".data
      = true := by decide

/-- C2 witness. -/
theorem parseRecord_labeled_witness :
    parseRecord " Record: 10-4-2 on 2025-10-01".data = some "10-4-2".data :=
  parseRecord_labeled [' '] " on 2025-10-01".data (by decide) (by decide)

end Scouting

namespace Scouting

/-! ### Claim C8 — state-rank parser -/

theorem softChar_not_letter {c : Char} (h : softChar c = true) : isLetterCh c = false := by
  have h2 : (c = ' ' ∨ c = '.') ∨ c = ',' := by simpa [softChar] using h
  rcases h2 with (h2 | h2) | h2 <;> subst h2 <;> decide

theorem softChar_not_digit {c : Char} (h : softChar c = true) : isDigitCh c = false := by
  have h2 : (c = ' ' ∨ c = '.') ∨ c = ',' := by simpa [softChar] using h
  rcases h2 with (h2 | h2) | h2 <;> subst h2 <;> decide

theorem isLetterCh_false_not_upper {c : Char} (h : isLetterCh c = false) :
    ¬('A' ≤ c ∧ c ≤ 'Z') := by
  have h2 : ¬(('a' ≤ c ∧ c ≤ 'z') ∨ ('A' ≤ c ∧ c ≤ 'Z')) := by
    simpa [isLetterCh] using h
  exact fun hc => h2 (Or.inr hc)

theorem asciiLower_of_not_letter {c : Char} (h : isLetterCh c = false) :
    asciiLower c = c := by
  unfold asciiLower
  rw [if_neg (isLetterCh_false_not_upper h)]

/-- A non-letter never case-insensitively equals a lower-case letter. -/
theorem lowerEq_nonletter {c d : Char} (hc : isLetterCh c = false)
    (hd : isLetterCh d = true) (hdl : asciiLower d = d) : lowerEq c d = false := by
  unfold lowerEq
  rw [asciiLower_of_not_letter hc, hdl]
  have hne : c ≠ d := by
    intro he
    rw [he] at hc
    rw [hc] at hd
    cases hd
  simp [hne]

theorem startsCI_cons (p : Char) (ps : List Char) (c : Char) (cs : List Char) :
    startsCI (p :: ps) (c :: cs) = (lowerEq c p && startsCI ps cs) := by
  rcases hb : lowerEq c p with _ | _ <;> simp [startsCI, matchCI, hb]

theorem containsCI_cons (c : Char) (cs pat : List Char) :
    containsCI (c :: cs) pat = (startsCI pat (c :: cs) || containsCI cs pat) := rfl

theorem lowerLetters_cons {n : Char} {nm : List Char} (h : lowerLetters (n :: nm) = true) :
    isLetterCh n = true ∧ asciiLower n = n ∧ lowerLetters nm = true := by
  rw [lowerLetters, List.all_cons, Bool.and_eq_true, Bool.and_eq_true, beq_iff_eq] at h
  exact ⟨h.1.1, h.1.2, h.2⟩

theorem noLetters_cons {c : Char} {l : List Char} (h : noLetters (c :: l) = true) :
    isLetterCh c = false ∧ noLetters l = true := by
  rw [noLetters, List.all_cons, Bool.and_eq_true] at h
  exact ⟨by simpa using h.1, h.2⟩

/-- Appending a letter-free suffix cannot create a new prefix match of a
lower-case-letter pattern. -/
theorem startsCI_append_stop {s : List Char} (hs : noLetters s = true) :
    ∀ (nm : List Char), lowerLetters nm = true →
      ∀ t, startsCI nm (t ++ s) = startsCI nm t := by
  intro nm
  induction nm with
  | nil => intro _ t; rfl
  | cons n nm' ih =>
    intro hnm t
    obtain ⟨hn1, hn2, hn3⟩ := lowerLetters_cons hnm
    cases t with
    | nil =>
      rw [List.nil_append]
      cases s with
      | nil => rfl
      | cons c s' =>
        rw [startsCI_cons, lowerEq_nonletter (noLetters_cons hs).1 hn1 hn2]
        rfl
    | cons x t' =>
      rw [List.cons_append, startsCI_cons, startsCI_cons, ih hn3 t']

/-- A letter-free text does not contain a letter pattern. -/
theorem containsCI_noLetters {n : Char} {nm' : List Char}
    (hnm : lowerLetters (n :: nm') = true) :
    ∀ {s : List Char}, noLetters s = true → containsCI s (n :: nm') = false := by
  intro s
  induction s with
  | nil => intro _; rfl
  | cons c s' ih =>
    intro hs
    obtain ⟨hc, hs'⟩ := noLetters_cons hs
    obtain ⟨hn1, hn2, _⟩ := lowerLetters_cons hnm
    rw [containsCI_cons, startsCI_cons, lowerEq_nonletter hc hn1 hn2, ih hs']
    rfl

theorem containsCI_append_right {s : List Char} (hs : noLetters s = true)
    {n : Char} {nm' : List Char} (hnm : lowerLetters (n :: nm') = true) :
    ∀ t, containsCI (t ++ s) (n :: nm') = containsCI t (n :: nm') := by
  intro t
  induction t with
  | nil =>
    rw [List.nil_append, containsCI_noLetters hnm hs]
    rfl
  | cons x t' ih =>
    rw [List.cons_append, containsCI_cons, containsCI_cons, ih]
    have := startsCI_append_stop hs (n :: nm') hnm (x :: t')
    rw [List.cons_append] at this
    rw [this]

theorem containsCI_append_left {p : List Char} (hp : noLetters p = true)
    {n : Char} {nm' : List Char} (hnm : lowerLetters (n :: nm') = true) :
    ∀ X, containsCI (p ++ X) (n :: nm') = containsCI X (n :: nm') := by
  induction p with
  | nil => intro X; rw [List.nil_append]
  | cons c cs ih =>
    intro X
    obtain ⟨hc, hcs⟩ := noLetters_cons hp
    obtain ⟨hn1, hn2, _⟩ := lowerLetters_cons hnm
    rw [List.cons_append, containsCI_cons, startsCI_cons,
      lowerEq_nonletter hc hn1 hn2, ih hcs X]
    rfl

theorem matchCI_drop : ∀ (pat l r : List Char), matchCI pat l = some r → ∃ k, r = l.drop k := by
  intro pat
  induction pat with
  | nil =>
    intro l r h
    refine ⟨0, ?_⟩
    have : l = r := by simpa [matchCI] using h
    simp [this]
  | cons p ps ih =>
    intro l r h
    cases l with
    | nil => simp [matchCI] at h
    | cons c cs =>
      unfold matchCI at h
      rcases hb : lowerEq c p with _ | _
      · rw [hb] at h; simp at h
      · rw [hb] at h
        simp only [if_true] at h
        obtain ⟨k, hk⟩ := ih cs r h
        exact ⟨k + 1, by simpa [List.drop_succ_cons] using hk⟩

theorem dropWhile_eq_drop (q : Char → Bool) :
    ∀ l : List Char, l.dropWhile q = l.drop (l.takeWhile q).length := by
  intro l
  induction l with
  | nil => rfl
  | cons c cs ih =>
    rcases hb : q c with _ | _
    · simp [List.dropWhile_cons, List.takeWhile_cons, hb]
    · simp [List.dropWhile_cons, List.takeWhile_cons, hb, ih]

theorem ordSuffix_drop {x y : List Char} (h : ordSuffix x = some y) : ∃ k, y = x.drop k := by
  unfold ordSuffix at h
  rcases h1 : matchCI "st".data x with _ | r <;> rw [h1] at h
  · rcases h2 : matchCI "nd".data x with _ | r <;> rw [h2] at h
    · rcases h3 : matchCI "rd".data x with _ | r <;> rw [h3] at h
      · exact matchCI_drop _ _ _ h
      · simp only [Option.some.injEq] at h
        subst h
        exact matchCI_drop _ _ _ h3
    · simp only [Option.some.injEq] at h
      subst h
      exact matchCI_drop _ _ _ h2
  · simp only [Option.some.injEq] at h
    subst h
    exact matchCI_drop _ _ _ h1

theorem containsCI_of_drop :
    ∀ (l : List Char) (k : Nat) {nm : List Char},
      startsCI nm (l.drop k) = true → containsCI l nm = true := by
  intro l
  induction l with
  | nil =>
    intro k nm h
    cases k <;> simpa [containsCI] using h
  | cons c cs ih =>
    intro k nm h
    cases k with
    | zero =>
      rw [List.drop_zero] at h
      rw [containsCI_cons, h]
      rfl
    | succ j =>
      rw [List.drop_succ_cons] at h
      rw [containsCI_cons, ih j h]
      simp

end Scouting

namespace Scouting

/-- A successful rank-pattern match at a position exhibits the name as a
case-insensitive substring of the text. -/
theorem stateAt_sound {nm l : List Char} {v : Nat} (h : stateAt nm l = some v) :
    containsCI l nm = true := by
  unfold stateAt at h
  rcases h0 : (l.takeWhile isDigitCh).isEmpty with _ | _
  · rw [h0] at h
    simp only [Bool.false_eq_true, if_false] at h
    rcases hord : ordSuffix (l.dropWhile isDigitCh) with _ | r2 <;> rw [hord] at h <;>
      dsimp only at h
    · cases h
    · rcases h1 : (r2.takeWhile isWsCh).isEmpty with _ | _ <;> rw [h1] at h
      · simp only [Bool.false_eq_true, if_false] at h
        rcases hm : matchCI nm (r2.dropWhile isWsCh) with _ | r4 <;> rw [hm] at h <;>
          dsimp only at h
        · cases h
        · have hst : startsCI nm (r2.dropWhile isWsCh) = true := by
            rw [startsCI, hm]
            rfl
          obtain ⟨k2, hk2⟩ := ordSuffix_drop hord
          rw [dropWhile_eq_drop isWsCh r2, hk2, dropWhile_eq_drop isDigitCh l,
            List.drop_drop, List.drop_drop] at hst
          exact containsCI_of_drop l _ hst
      · simp at h
  · rw [h0] at h
    simp at h

/-- One-step unfolding of `scanState`. -/
theorem scanState_cons (nm : List Char) (c : Char) (rest : List Char) :
    scanState nm (c :: rest) =
      match stateAt nm (c :: rest) with
      | some v => some v
      | none => scanState nm rest := rfl

theorem stateAt_nondigit {nm : List Char} {c : Char} {l : List Char}
    (hc : isDigitCh c = false) : stateAt nm (c :: l) = none := by
  unfold stateAt
  rw [if_pos]
  simp [List.takeWhile_cons, hc]

theorem scanState_none_of_not_contains {nm : List Char} :
    ∀ {l : List Char}, containsCI l nm = false → scanState nm l = none := by
  intro l
  induction l with
  | nil => intro _; rfl
  | cons c cs ih =>
    intro h
    rw [containsCI_cons, Bool.or_eq_false_iff] at h
    rw [scanState_cons]
    rcases hsa : stateAt nm (c :: cs) with _ | v
    · simp only []
      exact ih h.2
    · have := stateAt_sound hsa
      rw [containsCI_cons] at this
      rw [h.1, h.2] at this
      cases this

theorem scanState_append_nondigit {nm : List Char} :
    ∀ (p : List Char) {rest : List Char}, p.all (fun c => !isDigitCh c) = true →
      scanState nm (p ++ rest) = scanState nm rest := by
  intro p
  induction p with
  | nil => intro rest _; rfl
  | cons c cs ih =>
    intro rest hp
    rw [List.all_cons, Bool.and_eq_true] at hp
    have hc : isDigitCh c = false := by simpa using hp.1
    rw [List.cons_append, scanState_cons, stateAt_nondigit hc]
    exact ih hp.2

end Scouting

namespace Scouting

/-- C8 (amended): on a text made of a filler prefix (spaces and sentence
punctuation), the phrase `3rd Missouri 12U - A1`, and a letter-free suffix
— so that the Missouri phrase is the only region phrase and no
`USA`/`United States` phrase occurs — the state-rank parser returns 3,
whether or not any hints are supplied (the full-name table is consulted
before the hints and already matches).  (As frozen, the claim quantified
over every text containing the phrase; a text carrying an additional
earlier-table state phrase, e.g. Alabama's, returns that rank instead —
see the counterexample.) -/
theorem parseStateRank_missouri_phrase (p s : List Char) (hints : List (List Char))
    (hp : p.all softChar = true) (hs : noLetters s = true) :
    parseStateRank (p ++ "3rd Missouri 12U - A1".data ++ s) hints = some 3 := by
  have hpl : noLetters p = true := by
    rw [noLetters, List.all_eq_true]
    intro c hc
    simpa using softChar_not_letter (List.all_eq_true.mp hp c hc)
  have hpd : p.all (fun c => !isDigitCh c) = true := by
    rw [List.all_eq_true]
    intro c hc
    simpa using softChar_not_digit (List.all_eq_true.mp hp c hc)
  rw [List.append_assoc]
  have key : ∀ nm : List Char, nm ≠ [] → lowerLetters nm = true →
      containsCI "3rd Missouri 12U - A1".data nm = false →
      scanState nm (p ++ ("3rd Missouri 12U - A1".data ++ s)) = none := by
    intro nm hne hll hcc
    apply scanState_none_of_not_contains
    cases nm with
    | nil => exact absurd rfl hne
    | cons n nm' =>
      rw [containsCI_append_left hpl hll, containsCI_append_right hs hll]
      exact hcc
  have hM0 : stateAt "missouri".data ('3' :: ("rd Missouri 12U - A1".data ++ s)) =
      some 3 := rfl
  have hM : scanState "missouri".data (p ++ ("3rd Missouri 12U - A1".data ++ s)) =
      some 3 := by
    rw [scanState_append_nondigit p hpd]
    show scanState "missouri".data ('3' :: ("rd Missouri 12U - A1".data ++ s)) = some 3
    rw [scanState_cons, hM0]
  simp only [parseStateRank, stateNamesOrdered, List.findSome?_cons,
    key "alabama".data (by decide) (by decide) (by decide),
    key "alaska".data (by decide) (by decide) (by decide),
    key "arizona".data (by decide) (by decide) (by decide),
    key "arkansas".data (by decide) (by decide) (by decide),
    key "california".data (by decide) (by decide) (by decide),
    key "colorado".data (by decide) (by decide) (by decide),
    key "connecticut".data (by decide) (by decide) (by decide),
    key "delaware".data (by decide) (by decide) (by decide),
    key "florida".data (by decide) (by decide) (by decide),
    key "georgia".data (by decide) (by decide) (by decide),
    key "hawaii".data (by decide) (by decide) (by decide),
    key "idaho".data (by decide) (by decide) (by decide),
    key "illinois".data (by decide) (by decide) (by decide),
    key "indiana".data (by decide) (by decide) (by decide),
    key "iowa".data (by decide) (by decide) (by decide),
    key "kansas".data (by decide) (by decide) (by decide),
    key "kentucky".data (by decide) (by decide) (by decide),
    key "louisiana".data (by decide) (by decide) (by decide),
    key "maine".data (by decide) (by decide) (by decide),
    key "maryland".data (by decide) (by decide) (by decide),
    key "massachusetts".data (by decide) (by decide) (by decide),
    key "michigan".data (by decide) (by decide) (by decide),
    key "minnesota".data (by decide) (by decide) (by decide),
    key "mississippi".data (by decide) (by decide) (by decide),
    hM]

/-- C8 counterexample: the full-name loop tries states in table order, so
an earlier Alabama phrase wins even though the text contains
`3rd Missouri 12U - A1` and no `USA` phrase. -/
theorem parseStateRank_order_cex :
    parseStateRank "5th Alabama 12U 3rd Missouri 12U - A1".data [] = some 5 ∧
    containsCI "5th Alabama 12U 3rd Missouri 12U - A1".data
      "3rd Missouri 12U - A1".data = true ∧
    containsCI "5th Alabama 12U 3rd Missouri 12U - A1".data "USA".data = false := by
  decide

/-- C8 witness: with and without a caller hint. -/
theorem parseStateRank_missouri_witness :
    parseStateRank " 3rd Missouri 12U - A1 .".data ["MO".data] = some 3 ∧
    parseStateRank " 3rd Missouri 12U - A1 .".data [] = some 3 := by
  have h1 := parseStateRank_missouri_phrase [' '] " .".data ["MO".data]
    (by decide) (by decide)
  have h2 := parseStateRank_missouri_phrase [' '] " .".data [] (by decide) (by decide)
  exact ⟨h1, h2⟩

end Scouting
